import Mathlib

/-!
Verification of the batch-orchestration layer of the Symphony logo-detection
service: a shallow embedding of the progress tracker (utils/batch_tracker.py),
the background dispatcher (utils/background_tasks.py), the WebSocket connection
manager (utils/ws_manager.py) and the chunked batch endpoint
(routers/batch.py), together with theorems settling the spec claims.

Conventions: Python dicts keyed by strings are association lists; `asyncio`
coroutines are pure state transformers, with one transformer per region of
code that runs without an intervening suspension point; machine-independent
counters are `Nat`.
-/

/-- The per-batch progress record stored in `_batch_data` by
utils/batch_tracker.py.  Field order follows the dict literal in
`init_batch`. -/
structure BatchRec where
  processed : Nat
  total : Nat
  valid : Nat
  invalid : Nat
  done : Bool
  complete_sent : Bool
  retry_phase : Bool
  retry_processed : Nat
  retry_total : Nat
deriving Repr, DecidableEq

/-- The record written by `init_batch` (batch_tracker.py line 52). -/
def initRec (total : Nat) : BatchRec :=
  { processed := 0, total := total, valid := 0, invalid := 0, done := false,
    complete_sent := false, retry_phase := false, retry_processed := 0,
    retry_total := 0 }

/-- The record written by `re_init_batch` (batch_tracker.py line 78): the
saved counters are restored, flags and retry counters reset. -/
def reInitRec (total processed valid invalid : Nat) : BatchRec :=
  { processed := processed, total := total, valid := valid, invalid := invalid,
    done := false, complete_sent := false, retry_phase := false,
    retry_processed := 0, retry_total := 0 }

/-- The critical section of `update_batch` (batch_tracker.py lines 106-120):
increments `processed` and the `valid`/`invalid` tally; the snapshot returned
is a copy of the updated record. -/
def updateBatchRec (is_valid : Bool) (r : BatchRec) : BatchRec :=
  let r1 := { r with processed := r.processed + 1 }
  if is_valid then { r1 with valid := r1.valid + 1 }
  else { r1 with invalid := r1.invalid + 1 }

/-- The critical section of `mark_done` (batch_tracker.py lines 345-350). -/
def markDoneRec (r : BatchRec) : BatchRec :=
  { r with done := true, complete_sent := true }

/-- The critical section of `start_retry_phase` (batch_tracker.py
lines 413-417). -/
def startRetryRec (retry_total : Nat) (r : BatchRec) : BatchRec :=
  { r with
    retry_phase := true, retry_total := retry_total, retry_processed := 0 }

/-- The critical section of `update_retry_progress` (batch_tracker.py
lines 431-449): increments `retry_processed` and the `valid`/`invalid` tally.
The `processed` key is not touched. -/
def updateRetryRec (is_valid : Bool) (r : BatchRec) : BatchRec :=
  let r1 := { r with retry_processed := r.retry_processed + 1 }
  if is_valid then { r1 with valid := r1.valid + 1 }
  else { r1 with invalid := r1.invalid + 1 }

/-! Association-list model of a Python dict with string keys. -/

/-- First-match lookup in an association list (dict access / `dict.get`). -/
def lookupA {α : Type} : List (String × α) → String → Option α
  | [], _ => none
  | (k, v) :: l, key => if k = key then some v else lookupA l key

/-- Remove every binding of a key (dict `pop` / `del`). -/
def eraseA {α : Type} : List (String × α) → String → List (String × α)
  | [], _ => []
  | (k, v) :: l, key => if k = key then eraseA l key else (k, v) :: eraseA l key

/-- Overwrite the binding of a key (dict assignment). -/
def insertA {α : Type} (l : List (String × α)) (key : String) (v : α) :
    List (String × α) :=
  (key, v) :: eraseA l key

/-- The `_batch_data` store: `defaultdict(dict)` mapping batch ids to their
progress record.  `some none` stands for a key bound to an empty dict (as
materialized by the defaultdict on a missed access), which lacks all counter
keys. -/
abbrev Store : Type := List (String × Option BatchRec)

/-- `init_batch` (batch_tracker.py lines 36-65, auto-expiry task aside). -/
def init_batch (batch_id : String) (total : Nat) (d : Store) : Store :=
  insertA d batch_id (some (initRec total))

/-- `re_init_batch` (batch_tracker.py lines 68-89). -/
def re_init_batch (batch_id : String) (total processed valid invalid : Nat)
    (d : Store) : Store :=
  insertA d batch_id (some (reInitRec total processed valid invalid))

/-- `update_batch` (batch_tracker.py lines 92-120).  Reading
`_batch_data[batch_id]` on a missing key makes the defaultdict insert an empty
dict; `progress["processed"] += 1` then raises KeyError, modelled as a `none`
snapshot.  The inserted empty dict stays behind. -/
def update_batch (batch_id : String) (is_valid : Bool) (d : Store) :
    Option BatchRec × Store :=
  match lookupA d batch_id with
  | some (some progress) =>
      let p2 := updateBatchRec is_valid progress
      (some p2, insertA d batch_id (some p2))
  | some none => (none, d)
  | none => (none, insertA d batch_id none)

/-- `update_retry_progress` (batch_tracker.py lines 420-449), with the same
defaultdict/KeyError behavior as `update_batch`. -/
def update_retry_progress (batch_id : String) (is_valid : Bool) (d : Store) :
    Option BatchRec × Store :=
  match lookupA d batch_id with
  | some (some progress) =>
      let p2 := updateRetryRec is_valid progress
      (some p2, insertA d batch_id (some p2))
  | some none => (none, d)
  | none => (none, insertA d batch_id none)

/-- `get_progress` (batch_tracker.py lines 123-134): `_batch_data.get(batch_id,
empty dict)`; `none` stands for the empty dict. -/
def get_progress (batch_id : String) (d : Store) : Option BatchRec :=
  match lookupA d batch_id with
  | some (some progress) => some progress
  | _ => none

/-- `is_complete_sent` (batch_tracker.py lines 353-364). -/
def is_complete_sent (batch_id : String) (d : Store) : Bool :=
  match get_progress batch_id d with
  | some progress => progress.complete_sent
  | none => false

/-- `clear_batch` (batch_tracker.py lines 452-464). -/
def clear_batch (batch_id : String) (d : Store) : Store :=
  eraseA d batch_id

/-- Concrete record used to refute claim C7: a batch mid retry phase. -/
def c7rec : BatchRec :=
  { processed := 3, total := 10, valid := 2, invalid := 1, done := false,
    complete_sent := false, retry_phase := true, retry_processed := 0,
    retry_total := 2 }

/-! Checkpoint records (utils/batch_tracker.py, pending files on disk). -/

/-- Contents of `pending_urls.json` as written by `save_pending_urls`
(batch_tracker.py lines 137-165); `created_at` is irrelevant to the claims
and omitted. -/
structure PendingData where
  batch_id : String
  client_id : String
  chunk_size : Nat
  image_urls : List String
  processed : Nat
  total : Nat
  valid : Nat
  invalid : Nat
deriving Repr, DecidableEq

/-- `save_pending_urls` (batch_tracker.py lines 137-165). -/
def save_pending_urls (batch_id client_id : String) (chunk_size : Nat)
    (image_urls : List String) : PendingData :=
  { batch_id := batch_id, client_id := client_id, chunk_size := chunk_size,
    image_urls := image_urls, processed := 0, total := image_urls.length,
    valid := 0, invalid := 0 }

/-- Contents of `pending_files.json` as written by `save_pending_files`
(batch_tracker.py lines 168-204). -/
structure PendingFiles where
  batch_id : String
  client_id : String
  chunk_size : Nat
  files_names : List String
  processed : Nat
  total : Nat
  valid : Nat
  invalid : Nat
deriving Repr, DecidableEq

/-- `save_pending_files` (batch_tracker.py lines 168-204), file bytes aside. -/
def save_pending_files (batch_id client_id : String) (chunk_size : Nat)
    (files : List String) : PendingFiles :=
  { batch_id := batch_id, client_id := client_id, chunk_size := chunk_size,
    files_names := files, processed := 0, total := files.length,
    valid := 0, invalid := 0 }

/-- Remove the first list element satisfying a predicate (identity on lists
with no such element). -/
def removeFirstMatch (p : String → Bool) : List String → List String
  | [] => []
  | u :: us => if p u then us else u :: removeFirstMatch p us

/-- Drop leading whitespace characters. -/
def stripLeading : List Char → List Char
  | [] => []
  | c :: cs => if c.isWhitespace then stripLeading cs else c :: cs

/-- Python `str.strip()`: drop leading and trailing whitespace. -/
def pyStrip (s : String) : String :=
  String.mk ((stripLeading (stripLeading s.data).reverse).reverse)

/-- `remove_processed_url` (batch_tracker.py lines 207-241) on a loaded
record: the source matches the stripped url against the stripped stored urls
and removes the entry at the first matching index, then increments the stored
counters; an absent url leaves the record unchanged. -/
def remove_processed_url (url : String) (is_valid : Bool) (d : PendingData) :
    PendingData :=
  let stored := d.image_urls.map (fun u => pyStrip u)
  if pyStrip url ∈ stored then
    { d with
      image_urls :=
        removeFirstMatch (fun u => pyStrip u == pyStrip url) d.image_urls,
      processed := d.processed + 1,
      valid := if is_valid then d.valid + 1 else d.valid,
      invalid := if is_valid then d.invalid else d.invalid + 1 }
  else d

/-- `remove_processed_file` (batch_tracker.py lines 244-281) on a loaded
record: `list.remove` drops the first equal entry. -/
def remove_processed_file (file_name : String) (is_valid : Bool)
    (d : PendingFiles) : PendingFiles :=
  if file_name ∈ d.files_names then
    { d with
      files_names := d.files_names.erase file_name,
      processed := d.processed + 1,
      valid := if is_valid then d.valid + 1 else d.valid,
      invalid := if is_valid then d.invalid else d.invalid + 1 }
  else d

/-! The dispatcher (utils/background_tasks.py), per-item behavior.  The
outcome of one classification call (`yolo_client.check_logo`) is abstracted
to whether the returned dict carries a truthy `Is_Timeout` flag and whether
`Is_Valid` equals `"Valid"`; `exn` stands for an exception escaping the try
block of the per-item coroutine. -/

inductive Outcome where
  | res (is_timeout : Bool) (is_valid : Bool)
  | exn
deriving Repr, DecidableEq

/-- Truthiness of `result.get("Is_Timeout")`; an exception produces no
result dict. -/
def Outcome.is_timeout : Outcome → Bool
  | .res t _ => t
  | .exn => false

/-- The validity recorded for the outcome: the except branch calls
`update_batch(batch_id, False)`. -/
def Outcome.is_valid : Outcome → Bool
  | .res _ v => v
  | .exn => false

/-- The per-batch state the dispatcher drives: the tracker record, the
on-disk checkpoint, the shared `failed_requests` list, and the batch results
CSV (one entry per data row, holding the item identifier of the row). -/
structure DispatchState where
  progress : BatchRec
  pending : PendingData
  failed_requests : List String
  csv_rows : List String
deriving Repr, DecidableEq

/-- `process_url_async` (background_tasks.py lines 117-193) in the main pass,
where `failed_requests` is the shared list: a timeout outcome only appends to
`failed_requests`; any other result writes the CSV row, runs `update_batch`,
and removes the url from the checkpoint; an exception hits the except branch,
which only runs `update_batch(batch_id, False)`. -/
def process_url_async (url : String) (o : Outcome) (s : DispatchState) :
    DispatchState :=
  match o with
  | .res true _ => { s with failed_requests := s.failed_requests ++ [url] }
  | .res false v =>
      { s with
        csv_rows := s.csv_rows ++ [url],
        progress := updateBatchRec v s.progress,
        pending := remove_processed_url url v s.pending }
  | .exn => { s with progress := updateBatchRec false s.progress }

/-- One iteration of the retry loop of `retry_failed_requests`
(background_tasks.py lines 481-541) for a url item: `process_url_async` is
re-invoked with `failed_requests = None` (so a second timeout hits the
AttributeError from `None.append`, landing in the except branch that calls
`update_batch(batch_id, False)` and returns an Invalid dict); the loop body
then writes the returned result to the CSV a further time and calls
`update_retry_progress` with its validity. -/
def retry_one_request (url : String) (o : Outcome) (s : DispatchState) :
    DispatchState :=
  let inner :=
    match o with
    | .res true _ => ({ s with progress := updateBatchRec false s.progress }, false)
    | .res false v =>
        ({ s with
            csv_rows := s.csv_rows ++ [url],
            progress := updateBatchRec v s.progress,
            pending := remove_processed_url url v s.pending }, v)
    | .exn => ({ s with progress := updateBatchRec false s.progress }, false)
  let s1 := inner.1
  { s1 with
    csv_rows := s1.csv_rows ++ [url],
    progress := updateRetryRec inner.2 s1.progress }

/-- The main pass over a batch of url items (every item submitted once
through `process_url_async`). -/
def run_main (items : List (String × Outcome)) (s : DispatchState) :
    DispatchState :=
  items.foldl (fun st it => process_url_async it.1 it.2 st) s

/-- `retry_failed_requests` (background_tasks.py lines 450-543): on a
nonempty failed list, `start_retry_phase` with the list length, then each
failed item retried sequentially. -/
def retry_failed_requests (retry_outcome : String → Outcome)
    (s : DispatchState) : DispatchState :=
  if s.failed_requests.isEmpty then s
  else
    let s2 :=
      { s with
        progress := startRetryRec s.failed_requests.length s.progress }
    s.failed_requests.foldl
      (fun st url => retry_one_request url (retry_outcome url) st) s2

/-- A full batch run in url mode: tracker initialized for the item count
(routers/batch.py `init_batch` on the first chunk), checkpoint saved, main
pass over all items (chunking does not affect the counters), then the retry
pass of `process_with_chunks` (background_tasks.py lines 264-271). -/
def run_batch (items : List (String × Outcome))
    (retry_outcome : String → Outcome) : DispatchState :=
  let s0 : DispatchState :=
    { progress := initRec items.length,
      pending := save_pending_urls "batch" "client" 10 (items.map Prod.fst),
      failed_requests := [], csv_rows := [] }
  retry_failed_requests retry_outcome (run_main items s0)

/-- Modelled from the spec: the startup recovery driver is absent from src/
(only its collaborators `re_init_batch`, `save_pending_urls`,
`save_pending_files` and the chunk dispatcher are there).  Per spec section
4.2, on startup each incomplete checkpoint is re-registered with the Progress
Ledger at its last known counters via `re_init_batch`, and its remaining
items are re-submitted through the Dispatcher exactly as if freshly
received; each remaining item that completes therefore passes through
`update_batch` with its verdict. -/
def recover_batch (cp : PendingData) (verdicts : List Bool) : BatchRec :=
  verdicts.foldl (fun r v => updateBatchRec v r)
    (reInitRec cp.total cp.processed cp.valid cp.invalid)

/-- Failing input for claims C1 and C4: a one-item batch whose single item
times out in the main pass and succeeds (Valid) in the retry pass. -/
def c1run : DispatchState :=
  run_batch [("img1", Outcome.res true false)] (fun _ => Outcome.res false true)

/-- Failing input for claim C4 (same shape as `c1run`, plus an item that
never times out). -/
def c4run : DispatchState :=
  run_batch [("img1", Outcome.res true false), ("img2", Outcome.res false true)]
    (fun _ => Outcome.res false true)

/-- A small dispatcher state used as concrete input for C5 and C9. -/
def c5state : DispatchState :=
  { progress := initRec 2,
    pending := save_pending_urls "b" "c" 10 ["u", "w"],
    failed_requests := [], csv_rows := [] }

/-! Chunk scheduling (background_tasks.py `process_with_chunks`): one task
per chunk, all created up front and run under `asyncio.gather` with a
semaphore bounding how many chunks are in flight. -/

/-- `max_concurrent_chunks` (background_tasks.py lines 228-229):
`min(max(2, cpu_count // 2), 3)`. -/
def max_concurrent_chunks (cpu_count : Nat) : Nat :=
  min (max 2 (cpu_count / 2)) 3

/-- An observable scheduling event for the chunk tasks of one batch. -/
inductive ChunkEv where
  | start (i : Nat)
  | finish (i : Nat)
deriving Repr, DecidableEq

/-- One admissible scheduler step.  State: the chunk indices in flight and
the next chunk index the FIFO semaphore may admit (`gather` starts the chunk
tasks in creation order).  A chunk may start only while fewer than `cap`
chunks are in flight; a chunk may finish only while in flight. -/
def chunkStep (cap : Nat) : List Nat × Nat → ChunkEv → Option (List Nat × Nat)
  | (running, next), .start i =>
      if i = next ∧ running.length < cap then some (i :: running, next + 1)
      else none
  | (running, next), .finish i =>
      if i ∈ running then some (running.erase i, next) else none

/-- Run a trace of scheduling events from a state; `none` means the trace is
not admissible under the semaphore discipline. -/
def chunkRun (cap : Nat) (st : List Nat × Nat) :
    List ChunkEv → Option (List Nat × Nat)
  | [] => some st
  | e :: tr =>
      match chunkStep cap st e with
      | some st2 => chunkRun cap st2 tr
      | none => none

/-- A trace the chunk scheduler of `process_with_chunks` admits, starting
from no chunk in flight. -/
def validTrace (cap : Nat) (tr : List ChunkEv) : Bool :=
  (chunkRun cap ([], 0) tr).isSome

/-- Strict sequentiality as the claim states it: chunk `i + 1` never starts
before chunk `i` has finished. -/
def sequentialFrom (finished : List Nat) : List ChunkEv → Bool
  | [] => true
  | ChunkEv.start i :: tr =>
      (decide (i = 0) || decide ((i - 1) ∈ finished)) &&
        sequentialFrom finished tr
  | ChunkEv.finish i :: tr => sequentialFrom (i :: finished) tr

/-- Strict sequentiality of a whole trace. -/
def sequentialTrace (tr : List ChunkEv) : Bool :=
  sequentialFrom [] tr

/-- A trace with two overlapping chunks, used to refute claim C6. -/
def c6trace : List ChunkEv :=
  [ChunkEv.start 0, ChunkEv.start 1, ChunkEv.finish 0, ChunkEv.finish 1]

/-! Terminal-event emission (claim C2).  A completion check runs as an
`asyncio` coroutine; it interleaves with others only at await points.  From
reading the tracker through `mark_done` there is no suspension (the per-batch
lock is only ever held across synchronous code, so acquiring it never
blocks), so a guard-plus-`mark_done` is one atomic step; the subsequent
broadcast of the complete event awaits the socket send, and `clear_batch`
runs after it.  A completion-check task is therefore a list of atomic
steps. -/

/-- Atomic steps of a completion check over one batch entry. -/
inductive TStep where
  | checkB
  | checkE (last : Bool)
  | emitS
  | clearS
deriving Repr, DecidableEq

/-- Shared state seen by the completion checks of one batch: its tracker
entry (`none` once cleared or never present) and how many complete events
have been sent to the watching connection. -/
structure CompState where
  entry : Option BatchRec
  emitted : Nat
deriving Repr, DecidableEq

/-- The retry-completion guard of `process_with_chunks` (background_tasks.py
lines 277-279). -/
def retry_complete (r : BatchRec) : Bool :=
  !r.retry_phase || r.retry_total ≤ r.retry_processed

/-- Execute one atomic step; the Bool tells whether the task continues.
`checkB` is the background completion check (background_tasks.py lines
276-287): `processed >= total`, retry complete, and `not is_complete_sent`,
then `mark_done`.  `checkE` is the chunked-endpoint completion check
(routers/batch.py lines 586-592): `processed == total` and
`chunk_index == total_chunks - 1`, then `mark_done` — no `complete_sent`
guard.  On a cleared entry either check dies with KeyError before emitting.
`emitS` broadcasts the complete event; `clearS` is `clear_batch`. -/
def execTStep (s : CompState) (t : TStep) : CompState × Bool :=
  match t, s with
  | .checkB, ⟨none, em⟩ => (⟨none, em⟩, false)
  | .checkB, ⟨some r, em⟩ =>
      if r.total ≤ r.processed ∧ retry_complete r = true ∧
          r.complete_sent = false then
        (⟨some (markDoneRec r), em⟩, true)
      else (⟨some r, em⟩, false)
  | .checkE _, ⟨none, em⟩ => (⟨none, em⟩, false)
  | .checkE last, ⟨some r, em⟩ =>
      if r.processed = r.total ∧ last = true then
        (⟨some (markDoneRec r), em⟩, true)
      else (⟨some r, em⟩, false)
  | .emitS, ⟨ent, em⟩ => (⟨ent, em + 1⟩, true)
  | .clearS, ⟨_, em⟩ => (⟨none, em⟩, true)

/-- Interleave the remaining programs of the completion tasks according to a
schedule of task indices; an index pointing at a finished task is skipped. -/
def runSched : CompState → List (List TStep) → List Nat → CompState
  | s, _, [] => s
  | s, tasks, i :: rest =>
      match tasks.get? i with
      | none => runSched s tasks rest
      | some [] => runSched s tasks rest
      | some (st :: prog) =>
          runSched (execTStep s st).1
            (tasks.set i (if (execTStep s st).2 then prog else [])) rest

/-- The background completion-check task of `process_with_chunks`. -/
def bgTask : List TStep := [TStep.checkB, TStep.emitS, TStep.clearS]

/-- The chunked-endpoint completion-check task of `check_logo_batch`, tagged
with whether this request carried the final chunk index. -/
def epTask (last : Bool) : List TStep := [TStep.checkE last, TStep.emitS, TStep.clearS]

/-- A batch at its terminal counters, complete event not yet sent. -/
def c2rec : BatchRec :=
  { processed := 5, total := 5, valid := 3, invalid := 2, done := false,
    complete_sent := false, retry_phase := false, retry_processed := 0,
    retry_total := 0 }

/-- The shapes a background completion task can have during execution. -/
def taskOk (t : List TStep) : Prop :=
  t = bgTask ∨ t = [TStep.emitS, TStep.clearS] ∨ t = [TStep.clearS] ∨ t = []

/-- Number of tasks that are committed to emitting the complete event. -/
def emitPending (tasks : List (List TStep)) : Nat :=
  tasks.countP (fun t => decide (t = [TStep.emitS, TStep.clearS]))

/-- The batch entry can no longer pass the `complete_sent` guard. -/
def flagged (s : CompState) : Prop :=
  match s.entry with
  | none => True
  | some r => r.complete_sent = true

/-- Invariant carried through background-only schedules. -/
def InvC2 (s : CompState) (tasks : List (List TStep)) : Prop :=
  (∀ t ∈ tasks, taskOk t) ∧
  s.emitted + emitPending tasks ≤ 1 ∧
  (s.emitted + emitPending tasks = 0 ∨ flagged s)

/-! The WebSocket `ConnectionManager` (utils/ws_manager.py).  WebSocket
handles are opaque numbers; timestamps are seconds as naturals (Python
subtracts `datetime` values; a not-yet-elapsed difference is never greater
than the timeout, matching truncated `Nat` subtraction). -/

/-- `ConnectionManager` state (ws_manager.py lines 47-53). -/
structure CMState where
  active_connections : List (String × List Nat)
  client_connections : List (String × Nat)
  client_batch_map : List (String × List String)
  client_last_seen : List (String × Nat)
  connection_recovery : List (String × (List String × Nat))
deriving Repr, DecidableEq

/-- `connect_client` (ws_manager.py lines 114-124): store the connection and
`setdefault` the batch list. -/
def connect_client (client_id : String) (ws : Nat) (m : CMState) : CMState :=
  { m with
    client_connections := insertA m.client_connections client_id ws,
    client_batch_map :=
      match lookupA m.client_batch_map client_id with
      | some _ => m.client_batch_map
      | none => insertA m.client_batch_map client_id [] }

/-- `mark_alive` (ws_manager.py lines 164-174). -/
def mark_alive (client_id : String) (now : Nat) (m : CMState) : CMState :=
  { m with client_last_seen := insertA m.client_last_seen client_id now }

/-- The loop body of `prune_stale_connections` (ws_manager.py lines 187-201)
for one stale client: snapshot its batch list into a recovery record when it
has one, then drop it from the active maps (the socket close is external). -/
def prune_one (now : Nat) (m : CMState) (client_id : String) : CMState :=
  let m2 :=
    match lookupA m.client_batch_map client_id with
    | some batches =>
        { m with
          connection_recovery :=
            insertA m.connection_recovery client_id (batches, now) }
    | none => m
  { m2 with
    client_connections := eraseA m2.client_connections client_id,
    client_last_seen := eraseA m2.client_last_seen client_id,
    client_batch_map := eraseA m2.client_batch_map client_id }

/-- `prune_stale_connections` (ws_manager.py lines 176-201): collect every
client whose heartbeat is older than the timeout, then prune each. -/
def prune_stale_connections (now timeout_secs : Nat) (m : CMState) : CMState :=
  let stale_clients :=
    (m.client_last_seen.filter
      (fun p => decide (timeout_secs < now - p.2))).map Prod.fst
  stale_clients.foldl (prune_one now) m

/-- `recover_connection` (ws_manager.py lines 203-215): pop the recovery
record; when one exists, reconnect the client and reinstate the recorded
batch list, returning it. -/
def recover_connection (client_id : String) (ws : Nat) (m : CMState) :
    List String × CMState :=
  match lookupA m.connection_recovery client_id with
  | some info =>
      let m1 :=
        { m with
          connection_recovery := eraseA m.connection_recovery client_id }
      let m2 := connect_client client_id ws m1
      (info.1,
        { m2 with
          client_batch_map := insertA m2.client_batch_map client_id info.1 })
  | none => ([], m)

/-- `cleanup_recovery_info` (ws_manager.py lines 217-228): drop recovery
records older than the bound. -/
def cleanup_recovery_info (now max_age_hours : Nat) (m : CMState) : CMState :=
  { m with
    connection_recovery :=
      m.connection_recovery.filter
        (fun p => decide (now - p.2.2 ≤ max_age_hours * 3600)) }

/-- The connect sequence of `websocket_endpoint` (routers/websocket.py lines
29-44): attempt recovery, then register the client; the welcome response
carries the recovered batch ids. -/
def websocket_endpoint_connect (client_id : String) (ws : Nat) (m : CMState) :
    List String × CMState :=
  let rm := recover_connection client_id ws m
  (rm.1, connect_client client_id ws rm.2)

/-- Concrete manager state for the C8 witness: two clients, each watching
one batch; client `"alice"` last heartbeat at time 0, `"bob"` at 150. -/
def c8state : CMState :=
  { active_connections := [],
    client_connections := [("alice", 1), ("bob", 2)],
    client_batch_map := [("alice", ["X"]), ("bob", ["Y"])],
    client_last_seen := [("alice", 0), ("bob", 150)],
    connection_recovery := [] }

/-! Theorems.  First the association-list facts used throughout. -/

theorem lookupA_insertA_self {α : Type} (l : List (String × α)) (k : String)
    (v : α) : lookupA (insertA l k v) k = some v := by
  simp [insertA, lookupA]

theorem lookupA_eraseA_self {α : Type} (l : List (String × α)) (k : String) :
    lookupA (eraseA l k) k = none := by
  induction l with
  | nil => simp [eraseA, lookupA]
  | cons p l ih =>
    obtain ⟨a, b⟩ := p
    by_cases h : a = k <;> simp [eraseA, lookupA, h, ih]

theorem lookupA_eraseA_ne {α : Type} (l : List (String × α)) {j k : String}
    (h : j ≠ k) : lookupA (eraseA l k) j = lookupA l j := by
  induction l with
  | nil => simp [eraseA]
  | cons p l ih =>
    obtain ⟨a, b⟩ := p
    simp only [eraseA]
    by_cases hak : a = k
    · subst hak
      have haj : ¬ a = j := fun e => h e.symm
      simp [lookupA, haj, ih]
    · by_cases haj : a = j <;> simp [lookupA, hak, haj, ih, h]

theorem lookupA_insertA_ne {α : Type} (l : List (String × α)) {j k : String}
    (v : α) (h : j ≠ k) : lookupA (insertA l k v) j = lookupA l j := by
  have hkj : ¬ k = j := fun e => h e.symm
  simp [insertA, lookupA, hkj, lookupA_eraseA_ne l h]

theorem lookupA_mem {α : Type} {l : List (String × α)} {k : String} {v : α}
    (h : lookupA l k = some v) : (k, v) ∈ l := by
  induction l with
  | nil => simp [lookupA] at h
  | cons p l ih =>
    obtain ⟨a, b⟩ := p
    by_cases ha : a = k
    · subst ha
      simp [lookupA] at h
      simp [h]
    · simp [lookupA, ha] at h
      exact List.mem_cons_of_mem _ (ih h)

/-- C7 counterexample: `update_retry_progress` does not increment the overall
`processed` counter.  On a record with `processed = 3` a valid retry outcome
leaves `processed` at 3 (the claim requires 4), while `retry_processed` and
`valid` are incremented. -/
theorem C7_counterexample :
    (updateRetryRec true c7rec).processed = 3 ∧
    (updateRetryRec true c7rec).retry_processed = 1 ∧
    (updateRetryRec true c7rec).valid = 3 ∧
    ¬ (updateRetryRec true c7rec).processed = 3 + 1 := by
  decide

/-- C7 as amended: `update_retry_progress` atomically increments
`retry_processed` and the `valid`/`invalid` counter chosen by the outcome,
leaves `processed` and `total` unchanged, and returns the snapshot equal to
the stored updated record. -/
theorem C7_prop (v : Bool) (r : BatchRec) (batch_id : String) (d : Store) :
    (updateRetryRec v r).retry_processed = r.retry_processed + 1 ∧
    (updateRetryRec v r).valid = (if v then r.valid + 1 else r.valid) ∧
    (updateRetryRec v r).invalid = (if v then r.invalid else r.invalid + 1) ∧
    (updateRetryRec v r).processed = r.processed ∧
    (updateRetryRec v r).total = r.total ∧
    (update_retry_progress batch_id v (insertA d batch_id (some r))).fst =
      some (updateRetryRec v r) ∧
    get_progress batch_id
        (update_retry_progress batch_id v (insertA d batch_id (some r))).snd =
      some (updateRetryRec v r) := by
  refine ⟨?_, ?_, ?_, ?_, ?_, ?_, ?_⟩ <;>
    cases v <;>
    simp [updateRetryRec, update_retry_progress, get_progress,
      lookupA_insertA_self]

/-- C10: calling `update_batch` or `update_retry_progress` on a batch id that
was never initialized (or was cleared) raises KeyError: the defaultdict leaves
an empty record behind, no fresh counters are created, and every other batch
id is untouched; clearing an initialized batch returns its id to the unknown
state. -/
theorem C10_prop (d : Store) (batch_id : String) (v : Bool)
    (h : lookupA d batch_id = none ∨ lookupA d batch_id = some none) :
    (update_batch batch_id v d).fst = none ∧
    (update_retry_progress batch_id v d).fst = none ∧
    lookupA (update_batch batch_id v d).snd batch_id = some none ∧
    lookupA (update_retry_progress batch_id v d).snd batch_id = some none ∧
    (∀ j, j ≠ batch_id →
      lookupA (update_batch batch_id v d).snd j = lookupA d j) ∧
    (∀ j, j ≠ batch_id →
      lookupA (update_retry_progress batch_id v d).snd j = lookupA d j) ∧
    (∀ total e, lookupA (clear_batch batch_id (init_batch batch_id total e))
      batch_id = none) := by
  rcases h with h | h <;>
    refine ⟨?_, ?_, ?_, ?_, ?_, ?_, ?_⟩ <;>
    simp [update_batch, update_retry_progress, clear_batch, init_batch, h,
      lookupA_insertA_self, lookupA_eraseA_self] <;>
    intro j hj <;>
    simp [lookupA_insertA_ne _ _ hj]

/-- C10 witness: on a store holding only batch `"b"`, updating unknown batch
`"a"` yields the KeyError result, records an empty dict under `"a"`, and
leaves `"b"` unchanged. -/
theorem C10_witness :
    (update_batch "a" true [("b", some (initRec 5))]).fst = none ∧
    lookupA (update_batch "a" true [("b", some (initRec 5))]).snd "a" =
      some none ∧
    lookupA (update_batch "a" true [("b", some (initRec 5))]).snd "b" =
      some (some (initRec 5)) := by
  have h := C10_prop [("b", some (initRec 5))] "a" true (Or.inl (by decide))
  exact ⟨h.1, h.2.2.1, by
    have hb := h.2.2.2.2.1 "b" (by decide)
    rw [hb]; decide⟩

theorem removeFirstMatch_length_le (p : String → Bool) (l : List String) :
    (removeFirstMatch p l).length ≤ l.length := by
  induction l with
  | nil => simp [removeFirstMatch]
  | cons u us ih =>
    by_cases h : p u = true
    · simp [removeFirstMatch, h]
    · simp [removeFirstMatch, h]
      omega

theorem removeFirstMatch_length (p : String → Bool) (l : List String)
    (h : ∃ u ∈ l, p u = true) : (removeFirstMatch p l).length + 1 = l.length := by
  induction l with
  | nil => simp at h
  | cons u us ih =>
    by_cases hu : p u = true
    · simp [removeFirstMatch, hu]
    · obtain ⟨w, hw, hpw⟩ := h
      have hw2 : w ∈ us := by
        rcases List.mem_cons.mp hw with rfl | hw2
        · exact absurd hpw hu
        · exact hw2
      have hrec := ih ⟨w, hw2, hpw⟩
      simp [removeFirstMatch, hu]
      omega

theorem foldl_updateBatchRec_processed (vs : List Bool) (r : BatchRec) :
    (vs.foldl (fun r v => updateBatchRec v r) r).processed =
      r.processed + vs.length := by
  induction vs generalizing r with
  | nil => simp
  | cons v vs ih =>
    have hv : (updateBatchRec v r).processed = r.processed + 1 := by
      cases v <;> simp [updateBatchRec]
    simp [List.foldl_cons, ih, hv]
    omega

theorem foldl_updateBatchRec_total (vs : List Bool) (r : BatchRec) :
    (vs.foldl (fun r v => updateBatchRec v r) r).total = r.total := by
  induction vs generalizing r with
  | nil => simp
  | cons v vs ih =>
    have hv : (updateBatchRec v r).total = r.total := by
      cases v <;> simp [updateBatchRec]
    simp [List.foldl_cons, ih, hv]

/-- C1: the counter invariant `valid + invalid = processed` fails on the
code.  On a one-item batch whose item times out and then succeeds on retry,
the retry pass runs `update_batch` (inside the re-invoked `process_url_async`)
and `update_retry_progress`, each incrementing `valid`, so the final snapshot
returned by `update_retry_progress` has `processed = 1` but `valid = 2`,
`invalid = 0`. -/
theorem C1_prop :
    c1run.progress.processed = 1 ∧ c1run.progress.total = 1 ∧
    c1run.progress.valid = 2 ∧ c1run.progress.invalid = 0 ∧
    c1run.progress.valid + c1run.progress.invalid ≠ c1run.progress.processed := by
  decide

/-- C4: on a batch where item `img1` times out and then succeeds on retry
while `img2` succeeds directly, the results CSV receives the `img1` result
row twice (once from the re-invoked `process_url_async`, once from the retry
loop body), refuting the one-final-record-per-item claim. -/
theorem C4_prop :
    c4run.csv_rows.count "img1" = 2 ∧ c4run.csv_rows.count "img2" = 1 := by
  decide

/-- C5: an item joins the retry set if and only if its classification result
carries a truthy `Is_Timeout` flag; a non-timeout outcome (including the
exception path) is recorded immediately through `update_batch` and never
touches the retry set. -/
theorem C5_prop (url : String) (o : Outcome) (s : DispatchState) :
    ((process_url_async url o s).failed_requests =
        s.failed_requests ++ [url] ↔ o.is_timeout = true) ∧
    ((process_url_async url o s).failed_requests =
        s.failed_requests ↔ o.is_timeout = false) ∧
    (o.is_timeout = false →
      (process_url_async url o s).progress =
        updateBatchRec o.is_valid s.progress) := by
  cases o with
  | res t v => cases t <;> simp [process_url_async, Outcome.is_timeout, Outcome.is_valid]
  | exn => simp [process_url_async, Outcome.is_timeout, Outcome.is_valid]

/-- C5 witness: concrete timeout and non-timeout outcomes on `c5state`. -/
theorem C5_witness :
    (process_url_async "u" (Outcome.res true false) c5state).failed_requests =
      c5state.failed_requests ++ ["u"] ∧
    (process_url_async "w" (Outcome.res false true) c5state).progress =
      updateBatchRec true c5state.progress :=
  ⟨(C5_prop "u" (Outcome.res true false) c5state).1.mpr rfl,
   (C5_prop "w" (Outcome.res false true) c5state).2.2 rfl⟩

/-- C9 counterexample: an item that completes through the exception path of
`process_url_async` is counted processed by the tracker, yet the checkpoint
remaining-item list does not shrink, refuting strict shrink-by-one per
completed item. -/
theorem C9_counterexample :
    (process_url_async "u" Outcome.exn c5state).progress.processed =
      c5state.progress.processed + 1 ∧
    (process_url_async "u" Outcome.exn c5state).pending.image_urls =
      c5state.pending.image_urls ∧
    ¬ ((process_url_async "u" Outcome.exn c5state).pending.image_urls.length + 1 =
        c5state.pending.image_urls.length) := by
  decide

/-- C9 as amended: the checkpoint remaining-item list never grows, and a
completion that goes through `remove_processed_url` / `remove_processed_file`
with the item present shrinks it by exactly one while incrementing the stored
counters; completions on the exception path bypass the removal. -/
theorem C9_prop (url file_name : String) (v : Bool) (d : PendingData)
    (e : PendingFiles) :
    (remove_processed_url url v d).image_urls.length ≤ d.image_urls.length ∧
    (remove_processed_file file_name v e).files_names.length ≤
      e.files_names.length ∧
    (pyStrip url ∈ d.image_urls.map (fun u => pyStrip u) →
      (remove_processed_url url v d).image_urls.length + 1 =
        d.image_urls.length ∧
      (remove_processed_url url v d).processed = d.processed + 1 ∧
      (remove_processed_url url v d).valid =
        (if v then d.valid + 1 else d.valid) ∧
      (remove_processed_url url v d).invalid =
        (if v then d.invalid else d.invalid + 1)) ∧
    (file_name ∈ e.files_names →
      (remove_processed_file file_name v e).files_names.length + 1 =
        e.files_names.length ∧
      (remove_processed_file file_name v e).processed = e.processed + 1) := by
  refine ⟨?_, ?_, ?_, ?_⟩
  · simp only [remove_processed_url]
    by_cases h : pyStrip url ∈ d.image_urls.map (fun u => pyStrip u)
    · rw [if_pos h]
      exact removeFirstMatch_length_le _ _
    · rw [if_neg h]
  · simp only [remove_processed_file]
    by_cases h : file_name ∈ e.files_names
    · rw [if_pos h]
      exact List.length_erase_le _ _
    · rw [if_neg h]
  · intro h
    have hex : ∃ u ∈ d.image_urls, (pyStrip u == pyStrip url) = true := by
      obtain ⟨w, hw, he⟩ := List.mem_map.mp h
      exact ⟨w, hw, by simp [he]⟩
    simp only [remove_processed_url]
    rw [if_pos h]
    exact ⟨removeFirstMatch_length _ _ hex, rfl, rfl, rfl⟩
  · intro h
    have hlen := List.length_erase_of_mem h
    have hpos : 0 < e.files_names.length := List.length_pos_of_mem h
    simp only [remove_processed_file]
    rw [if_pos h]
    exact ⟨by simpa using by omega, rfl⟩

/-- C9 witness: on `c5state`, removing the present url `"u"` shrinks the
remaining list from two entries to one and increments the counters. -/
theorem C9_witness :
    (remove_processed_url "u" true c5state.pending).image_urls.length + 1 =
      c5state.pending.image_urls.length ∧
    (remove_processed_url "u" true c5state.pending).processed =
      c5state.pending.processed + 1 :=
  ⟨((C9_prop "u" "f" true c5state.pending
      (save_pending_files "b" "c" 10 ["f"])).2.2.1 (by decide)).1,
   ((C9_prop "u" "f" true c5state.pending
      (save_pending_files "b" "c" 10 ["f"])).2.2.1 (by decide)).2.1⟩

/-- C3: recovery resumes counting.  A checkpoint whose remaining list and
saved `processed` add up to `total` is re-registered at its saved counters by
`re_init_batch`, and once every remaining item completes through
`update_batch`, the final `processed` equals `total`. -/
theorem C3_prop (cp : PendingData) (verdicts : List Bool)
    (h1 : verdicts.length = cp.image_urls.length)
    (h2 : cp.processed + cp.image_urls.length = cp.total) :
    (reInitRec cp.total cp.processed cp.valid cp.invalid).processed =
      cp.processed ∧
    (reInitRec cp.total cp.processed cp.valid cp.invalid).valid = cp.valid ∧
    (reInitRec cp.total cp.processed cp.valid cp.invalid).invalid =
      cp.invalid ∧
    (recover_batch cp verdicts).processed = cp.total ∧
    (recover_batch cp verdicts).total = cp.total := by
  refine ⟨rfl, rfl, rfl, ?_, ?_⟩
  · rw [recover_batch, foldl_updateBatchRec_processed]
    simp [reInitRec, h1]
    omega
  · rw [recover_batch, foldl_updateBatchRec_total]
    rfl

/-- C3 witness: the spec scenario, a checkpoint at processed 3 of 10 with 7
remaining items, ends at processed 10. -/
theorem C3_witness :
    (recover_batch
      { batch_id := "b", client_id := "c", chunk_size := 5,
        image_urls := ["u1", "u2", "u3", "u4", "u5", "u6", "u7"],
        processed := 3, total := 10, valid := 2, invalid := 1 }
      [true, true, false, true, false, true, true]).processed = 10 :=
  (C3_prop
    { batch_id := "b", client_id := "c", chunk_size := 5,
      image_urls := ["u1", "u2", "u3", "u4", "u5", "u6", "u7"],
      processed := 3, total := 10, valid := 2, invalid := 1 }
    [true, true, false, true, false, true, true]
    (by decide) (by decide)).2.2.2.1

theorem chunkRun_append (cap : Nat) (pre suf : List ChunkEv) :
    ∀ st : List Nat × Nat,
      chunkRun cap st (pre ++ suf) =
        (chunkRun cap st pre).bind (fun st2 => chunkRun cap st2 suf) := by
  induction pre with
  | nil => intro st; simp [chunkRun]
  | cons e pre ih =>
    intro st
    simp only [List.cons_append, chunkRun]
    cases h : chunkStep cap st e with
    | none => simp
    | some st2 => simp [ih]

theorem chunkRun_bound (cap : Nat) :
    ∀ (tr : List ChunkEv) (st st2 : List Nat × Nat),
      chunkRun cap st tr = some st2 → st.1.length ≤ cap →
      st2.1.length ≤ cap := by
  intro tr
  induction tr with
  | nil =>
    intro st st2 h hle
    simp [chunkRun] at h
    rw [← h]
    exact hle
  | cons e tr ih =>
    intro st st2 h hle
    simp only [chunkRun] at h
    cases hs : chunkStep cap st e with
    | none => rw [hs] at h; simp at h
    | some stm =>
      rw [hs] at h
      refine ih stm st2 h ?_
      obtain ⟨running, next⟩ := st
      cases e with
      | start i =>
        simp only [chunkStep] at hs
        by_cases hg : i = next ∧ running.length < cap
        · rw [if_pos hg] at hs
          cases hs
          simpa using hg.2
        · rw [if_neg hg] at hs
          cases hs
      | finish i =>
        simp only [chunkStep] at hs
        by_cases hg : i ∈ running
        · rw [if_pos hg] at hs
          cases hs
          exact le_trans (List.length_erase_le _ _) hle
        · rw [if_neg hg] at hs
          cases hs

/-- C6 counterexample: the chunk semaphore of `process_with_chunks` admits at
least two chunks in flight (here `max_concurrent_chunks 4 = 2`), so the
scheduler admits a trace in which chunk 1 starts before chunk 0 finishes,
refuting strict sequentiality. -/
theorem C6_counterexample :
    max_concurrent_chunks 4 = 2 ∧
    validTrace (max_concurrent_chunks 4) c6trace = true ∧
    sequentialTrace c6trace = false := by
  decide

/-- C6 as amended: chunk processing is bounded-concurrent, not sequential.
During any admitted schedule, at every moment at most
`max_concurrent_chunks cpu_count` chunks are in flight, and that cap lies
between 2 and 3 for every cpu count. -/
theorem C6_prop (cpu_count : Nat) (tr pre suf : List ChunkEv)
    (hsplit : tr = pre ++ suf)
    (hvalid : validTrace (max_concurrent_chunks cpu_count) tr = true) :
    (∃ stp, chunkRun (max_concurrent_chunks cpu_count) ([], 0) pre = some stp ∧
      stp.1.length ≤ max_concurrent_chunks cpu_count) ∧
    2 ≤ max_concurrent_chunks cpu_count ∧
    max_concurrent_chunks cpu_count ≤ 3 := by
  refine ⟨?_, Nat.le_min.mpr ⟨Nat.le_max_left _ _, by norm_num⟩,
    Nat.min_le_right _ _⟩
  unfold validTrace at hvalid
  rw [hsplit, chunkRun_append] at hvalid
  cases hp : chunkRun (max_concurrent_chunks cpu_count) ([], 0) pre with
  | none => rw [hp] at hvalid; simp at hvalid
  | some stp =>
    exact ⟨stp, rfl, chunkRun_bound _ pre ([], 0) stp hp (by simp)⟩

/-- C6 witness: the two-chunks-in-flight prefix of `c6trace` is admitted and
respects the bound at cpu count 4. -/
theorem C6_witness :
    (∃ stp, chunkRun (max_concurrent_chunks 4) ([], 0)
        [ChunkEv.start 0, ChunkEv.start 1] = some stp ∧
      stp.1.length ≤ max_concurrent_chunks 4) ∧
    2 ≤ max_concurrent_chunks 4 ∧ max_concurrent_chunks 4 ≤ 3 :=
  C6_prop 4 c6trace [ChunkEv.start 0, ChunkEv.start 1]
    [ChunkEv.finish 0, ChunkEv.finish 1] rfl (by decide)

theorem countP_set {α : Type} (p : α → Bool) :
    ∀ (l : List α) (i : Nat) (a b : α), l.get? i = some a →
      (l.set i b).countP p + (if p a then 1 else 0) =
        l.countP p + (if p b then 1 else 0) := by
  intro l
  induction l with
  | nil => intro i a b h; simp at h
  | cons x xs ih =>
    intro i a b h
    cases i with
    | zero =>
      simp at h
      subst h
      simp [List.countP_cons]
      omega
    | succ i =>
      have h2 : xs.get? i = some a := h
      simp only [List.set, List.countP_cons]
      have := ih i a b h2
      omega

theorem emitPending_set (tasks : List (List TStep)) (i : Nat)
    (a b : List TStep) (h : tasks.get? i = some a) :
    emitPending (tasks.set i b) +
        (if a = [TStep.emitS, TStep.clearS] then 1 else 0) =
      emitPending tasks +
        (if b = [TStep.emitS, TStep.clearS] then 1 else 0) := by
  have hc := countP_set
    (fun t => decide (t = [TStep.emitS, TStep.clearS])) tasks i a b h
  simpa [emitPending] using hc

theorem taskOk_set {tasks : List (List TStep)} {i : Nat} {b : List TStep}
    (hok : ∀ t ∈ tasks, taskOk t) (hb : taskOk b) :
    ∀ t ∈ tasks.set i b, taskOk t := by
  intro t ht
  rcases List.mem_or_eq_of_mem_set ht with h | h
  · exact hok t h
  · rw [h]; exact hb

theorem emitPending_replicate (n : Nat) :
    emitPending (List.replicate n bgTask) = 0 := by
  have hfalse : decide (bgTask = [TStep.emitS, TStep.clearS]) = false := by decide
  induction n with
  | zero => rfl
  | succ n ih =>
    simp only [List.replicate_succ, emitPending, List.countP_cons, hfalse] at *
    simpa using ih

theorem runSched_bound :
    ∀ (sched : List Nat) (s : CompState) (tasks : List (List TStep)),
      InvC2 s tasks → (runSched s tasks sched).emitted ≤ 1 := by
  intro sched
  induction sched with
  | nil =>
    intro s tasks h
    exact le_trans (Nat.le_add_right _ _) h.2.1
  | cons i rest ih =>
    intro s tasks h
    obtain ⟨ent, em⟩ := s
    obtain ⟨hok, hle, hzf⟩ := h
    simp only [runSched]
    cases hget : tasks.get? i with
    | none => exact ih ⟨ent, em⟩ tasks ⟨hok, hle, hzf⟩
    | some t =>
      have ht : taskOk t := hok t (List.get?_mem hget)
      have hne1 : ¬ (bgTask = [TStep.emitS, TStep.clearS]) := by decide
      have hne2 : ¬ (([] : List TStep) = [TStep.emitS, TStep.clearS]) := by
        decide
      have hne3 : ¬ ([TStep.clearS] = [TStep.emitS, TStep.clearS]) := by decide
      rcases ht with h1 | h1 | h1 | h1 <;> subst h1
      · -- background check at the head
        cases ent with
        | none =>
          show (runSched ⟨none, em⟩ (tasks.set i ([] : List TStep))
            rest).emitted ≤ 1
          apply ih
          have hc := emitPending_set tasks i bgTask [] hget
          rw [if_neg hne1, if_neg hne2] at hc
          have hle2 : em + emitPending tasks ≤ 1 := hle
          refine ⟨taskOk_set hok (by exact Or.inr (Or.inr (Or.inr rfl))), ?_, ?_⟩
          · show em + emitPending (tasks.set i []) ≤ 1
            omega
          · rcases hzf with hz | hf
            · left
              have hz2 : em + emitPending tasks = 0 := hz
              show em + emitPending (tasks.set i []) = 0
              omega
            · right; exact hf
        | some r =>
          simp only [bgTask, execTStep]
          by_cases hg : r.total ≤ r.processed ∧ retry_complete r = true ∧
              r.complete_sent = false
          · simp only [if_pos hg]
            show (runSched ⟨some (markDoneRec r), em⟩
              (tasks.set i [TStep.emitS, TStep.clearS]) rest).emitted ≤ 1
            have hflag : ¬ flagged ⟨some r, em⟩ := by
              intro hf
              have hf3 : r.complete_sent = true := hf
              rw [hg.2.2] at hf3
              exact Bool.noConfusion hf3
            have hzero : em + emitPending tasks = 0 := by
              rcases hzf with hz | hf
              · exact hz
              · exact absurd hf hflag
            apply ih
            have hc := emitPending_set tasks i bgTask
              [TStep.emitS, TStep.clearS] hget
            rw [if_neg hne1, if_pos rfl] at hc
            refine ⟨taskOk_set hok (by exact Or.inr (Or.inl rfl)), ?_, ?_⟩
            · show em + emitPending (tasks.set i [TStep.emitS, TStep.clearS]) ≤ 1
              omega
            · right
              exact rfl
          · simp only [if_neg hg]
            show (runSched ⟨some r, em⟩ (tasks.set i ([] : List TStep))
              rest).emitted ≤ 1
            apply ih
            have hc := emitPending_set tasks i bgTask [] hget
            rw [if_neg hne1, if_neg hne2] at hc
            have hle2 : em + emitPending tasks ≤ 1 := hle
            refine ⟨taskOk_set hok (by exact Or.inr (Or.inr (Or.inr rfl))), ?_, ?_⟩
            · show em + emitPending (tasks.set i []) ≤ 1
              omega
            · rcases hzf with hz | hf
              · left
                have hz2 : em + emitPending tasks = 0 := hz
                show em + emitPending (tasks.set i []) = 0
                omega
              · right; exact hf
      · -- emit at the head
        show (runSched ⟨ent, em + 1⟩ (tasks.set i [TStep.clearS])
          rest).emitted ≤ 1
        apply ih
        have hc := emitPending_set tasks i [TStep.emitS, TStep.clearS]
          [TStep.clearS] hget
        rw [if_pos rfl, if_neg hne3] at hc
        have hle2 : em + emitPending tasks ≤ 1 := hle
        refine ⟨taskOk_set hok (by exact Or.inr (Or.inr (Or.inl rfl))), ?_, ?_⟩
        · show em + 1 + emitPending (tasks.set i [TStep.clearS]) ≤ 1
          omega
        · right
          show flagged ⟨ent, em + 1⟩
          have hsum : 1 ≤ em + emitPending tasks := by omega
          rcases hzf with hz | hf
          · have hz2 : em + emitPending tasks = 0 := hz
            exact absurd hsum (by omega)
          · exact hf
      · -- clear at the head
        show (runSched ⟨none, em⟩ (tasks.set i ([] : List TStep))
          rest).emitted ≤ 1
        apply ih
        have hc := emitPending_set tasks i [TStep.clearS] [] hget
        rw [if_neg hne3, if_neg hne2] at hc
        have hle2 : em + emitPending tasks ≤ 1 := hle
        refine ⟨taskOk_set hok (by exact Or.inr (Or.inr (Or.inr rfl))), ?_, ?_⟩
        · show em + emitPending (tasks.set i []) ≤ 1
          omega
        · right
          exact trivial
      · -- finished task
        exact ih ⟨ent, em⟩ tasks ⟨hok, hle, hzf⟩

/-- C2 counterexample: two chunked-endpoint completion checks racing on the
same terminal batch (both carrying the final chunk index) each pass the
unguarded `processed == total` test before either request reaches
`clear_batch`, and the watching connection receives the complete event
twice. -/
theorem C2_counterexample :
    (runSched ⟨some c2rec, 0⟩ [epTask true, epTask true]
      [0, 1, 0, 1, 0, 1]).emitted = 2 := by
  decide

/-- C2 as amended: among background chunk-completion checks the terminal
event is emitted at most once — the `is_complete_sent` guard and `mark_done`
run without an intervening suspension, so any number of racing background
checks in any schedule deliver at most one complete event. -/
theorem C2_prop (n : Nat) (sched : List Nat) (r : BatchRec)
    (h : r.complete_sent = false) :
    (runSched ⟨some r, 0⟩ (List.replicate n bgTask) sched).emitted ≤ 1 := by
  apply runSched_bound
  refine ⟨?_, ?_, ?_⟩
  · intro t ht
    rw [List.eq_of_mem_replicate ht]
    exact Or.inl rfl
  · simp [emitPending_replicate]
  · left; simp [emitPending_replicate]

/-- C2 witness: two racing background completion checks on a terminal batch
emit at most one complete event. -/
theorem C2_witness :
    (runSched ⟨some c2rec, 0⟩ (List.replicate 2 bgTask)
      [0, 1, 0, 0, 1, 1]).emitted ≤ 1 :=
  C2_prop 2 [0, 1, 0, 0, 1, 1] c2rec rfl

theorem mem_split_first {α : Type} [DecidableEq α] {a : α} :
    ∀ {l : List α}, a ∈ l → ∃ s t, l = s ++ a :: t ∧ a ∉ s := by
  intro l
  induction l with
  | nil => intro h; simp at h
  | cons x xs ih =>
    intro h
    by_cases hx : x = a
    · subst hx
      exact ⟨[], xs, rfl, by simp⟩
    · have h2 : a ∈ xs := by
        rcases List.mem_cons.mp h with h3 | h3
        · exact absurd h3.symm hx
        · exact h3
      obtain ⟨s, t, hst, hns⟩ := ih h2
      refine ⟨x :: s, t, by rw [hst, List.cons_append], ?_⟩
      intro hmem
      rcases List.mem_cons.mp hmem with he | hm
      · exact hx he.symm
      · exact hns hm

theorem prune_one_ne (now : Nat) (m : CMState) {cid cid2 : String}
    (h : cid ≠ cid2) :
    lookupA (prune_one now m cid2).connection_recovery cid =
      lookupA m.connection_recovery cid ∧
    lookupA (prune_one now m cid2).client_batch_map cid =
      lookupA m.client_batch_map cid := by
  unfold prune_one
  cases hbm : lookupA m.client_batch_map cid2 with
  | none => simp [lookupA_eraseA_ne _ h]
  | some batches => simp [lookupA_eraseA_ne _ h, lookupA_insertA_ne _ _ h]

theorem prune_one_self (now : Nat) (m : CMState) (cid : String)
    (S : List String) (hbm : lookupA m.client_batch_map cid = some S) :
    lookupA (prune_one now m cid).connection_recovery cid = some (S, now) ∧
    lookupA (prune_one now m cid).client_batch_map cid = none := by
  unfold prune_one
  rw [hbm]
  simp [lookupA_insertA_self, lookupA_eraseA_self]

theorem prune_one_keeps (now : Nat) (m : CMState) (cid cid2 : String)
    (S : List String) (dt : Nat)
    (hrec : lookupA m.connection_recovery cid = some (S, dt))
    (hbm : lookupA m.client_batch_map cid = none) :
    lookupA (prune_one now m cid2).connection_recovery cid = some (S, dt) ∧
    lookupA (prune_one now m cid2).client_batch_map cid = none := by
  by_cases h : cid = cid2
  · subst h
    unfold prune_one
    rw [hbm]
    simp [lookupA_eraseA_self, hrec]
  · have hne := prune_one_ne now m h
    rw [hne.1, hne.2]
    exact ⟨hrec, hbm⟩

theorem prune_fold_keeps (now : Nat) (cid : String) (S : List String)
    (dt : Nat) :
    ∀ (cl : List String) (m : CMState),
      lookupA m.connection_recovery cid = some (S, dt) →
      lookupA m.client_batch_map cid = none →
      lookupA (cl.foldl (prune_one now) m).connection_recovery cid =
        some (S, dt) := by
  intro cl
  induction cl with
  | nil => intro m h1 _; simpa using h1
  | cons c cl ih =>
    intro m h1 h2
    have hk := prune_one_keeps now m cid c S dt h1 h2
    simpa using ih (prune_one now m c) hk.1 hk.2

theorem prune_fold_before (now : Nat) (cid : String) (S : List String) :
    ∀ (cl : List String) (m : CMState), cid ∉ cl →
      lookupA m.client_batch_map cid = some S →
      lookupA (cl.foldl (prune_one now) m).client_batch_map cid = some S := by
  intro cl
  induction cl with
  | nil => intro m _ h; simpa using h
  | cons c cl ih =>
    intro m hnot h
    have hne : cid ≠ c := fun e => hnot (by rw [e]; exact List.mem_cons_self c cl)
    have hcl : cid ∉ cl := fun e => hnot (List.mem_cons_of_mem c e)
    have hp := prune_one_ne now m hne
    have h2 : lookupA (prune_one now m c).client_batch_map cid = some S := by
      rw [hp.2]; exact h
    simpa using ih (prune_one now m c) hcl h2

theorem prune_sets_recovery (m : CMState) (cid : String) (S : List String)
    (l now timeout : Nat)
    (hb : lookupA m.client_batch_map cid = some S)
    (hs : lookupA m.client_last_seen cid = some l)
    (hstale : timeout < now - l) :
    lookupA (prune_stale_connections now timeout m).connection_recovery cid =
      some (S, now) := by
  unfold prune_stale_connections
  have hmem : cid ∈ (m.client_last_seen.filter
      (fun p => decide (timeout < now - p.2))).map Prod.fst := by
    have h1 : (cid, l) ∈ m.client_last_seen := lookupA_mem hs
    have h2 : (cid, l) ∈ m.client_last_seen.filter
        (fun p => decide (timeout < now - p.2)) :=
      List.mem_filter.mpr ⟨h1, by simpa using hstale⟩
    exact List.mem_map_of_mem Prod.fst h2
  obtain ⟨s, t, hsplit, hnotin⟩ := mem_split_first hmem
  rw [hsplit, List.foldl_append, List.foldl_cons]
  have hbs : lookupA (s.foldl (prune_one now) m).client_batch_map cid =
      some S := prune_fold_before now cid S s m hnotin hb
  have hself := prune_one_self now (s.foldl (prune_one now) m) cid S hbs
  exact prune_fold_keeps now cid S now t
    (prune_one now (s.foldl (prune_one now) m) cid) hself.1 hself.2

theorem endpoint_after_recovery (m1 : CMState) (cid : String)
    (S : List String) (dt ws : Nat)
    (hrec : lookupA m1.connection_recovery cid = some (S, dt)) :
    (websocket_endpoint_connect cid ws m1).fst = S ∧
    lookupA (websocket_endpoint_connect cid ws m1).snd.client_batch_map cid =
      some S ∧
    lookupA (websocket_endpoint_connect cid ws m1).snd.client_connections
      cid = some ws ∧
    lookupA (websocket_endpoint_connect cid ws m1).snd.connection_recovery
      cid = none := by
  refine ⟨?_, ?_, ?_, ?_⟩ <;>
    simp [websocket_endpoint_connect, recover_connection, hrec,
      connect_client, lookupA_insertA_self, lookupA_eraseA_self]

theorem recover_none (m : CMState) (cid : String) (ws : Nat)
    (h : lookupA m.connection_recovery cid = none) :
    (websocket_endpoint_connect cid ws m).fst = [] := by
  simp [websocket_endpoint_connect, recover_connection, h]

/-- C8: a subscriber watching batch set S whose heartbeat is older than the
prune timeout is removed by `prune_stale_connections` into a recovery record;
reconnecting under the same id while the record exists returns exactly S as
the recovered batches, reinstates S on the new connection, and clears the
record, so a second recovery attempt returns the empty list. -/
theorem C8_prop (m : CMState) (client_id : String) (S : List String)
    (l now timeout ws ws2 : Nat)
    (hb : lookupA m.client_batch_map client_id = some S)
    (hs : lookupA m.client_last_seen client_id = some l)
    (hstale : timeout < now - l) :
    (websocket_endpoint_connect client_id ws
        (prune_stale_connections now timeout m)).fst = S ∧
    lookupA (websocket_endpoint_connect client_id ws
        (prune_stale_connections now timeout m)).snd.client_batch_map
      client_id = some S ∧
    lookupA (websocket_endpoint_connect client_id ws
        (prune_stale_connections now timeout m)).snd.client_connections
      client_id = some ws ∧
    lookupA (websocket_endpoint_connect client_id ws
        (prune_stale_connections now timeout m)).snd.connection_recovery
      client_id = none ∧
    (websocket_endpoint_connect client_id ws2
        (websocket_endpoint_connect client_id ws
          (prune_stale_connections now timeout m)).snd).fst = [] := by
  have hrec := prune_sets_recovery m client_id S l now timeout hb hs hstale
  have he := endpoint_after_recovery (prune_stale_connections now timeout m)
    client_id S now ws hrec
  exact ⟨he.1, he.2.1, he.2.2.1, he.2.2.2, recover_none _ _ ws2 he.2.2.2⟩

/-- C8 witness: client `"alice"`, silent since time 0, is pruned at time 200
with timeout 90 while watching batch `"X"`; the reconnect recovers exactly
`["X"]` and a second reconnect recovers nothing. -/
theorem C8_witness :
    (websocket_endpoint_connect "alice" 7
        (prune_stale_connections 200 90 c8state)).fst = ["X"] ∧
    (websocket_endpoint_connect "alice" 8
        (websocket_endpoint_connect "alice" 7
          (prune_stale_connections 200 90 c8state)).snd).fst = [] := by
  have h := C8_prop c8state "alice" ["X"] 0 200 90 7 8
    (by decide) (by decide) (by decide)
  exact ⟨h.1, h.2.2.2.2⟩
